import Mathlib

/-!
Verification of the ComposeLab/claude-plugins repository core against its
specification.  Two parts of the codebase are modelled:

* the binary search tree of
  `plugins/python-algorithms/skills/algo-graphs-trees/binary_search_tree.py`,
  embedded directly from the Python source;
* the `core-mq` message-bus library.  Only its integration test suite
  (`plugins/core-usage/skills/core-mq/tests/test_mq_integration.py`) is in the
  repository; the `mq` package itself (Message, config models, pattern
  matcher, bus, registry) is absent, so those definitions are modelled from
  the specification, as marked in their doc comments.
-/

/- ------------------------------------------------------------------------ -/
/- Part 1: binary search tree (binary_search_tree.py)                        -/
/- ------------------------------------------------------------------------ -/

/-- Shape of `TreeNode` in binary_search_tree.py: a node holds a value and
two optional children; `leaf` stands for Python's `None`. -/
inductive BTree (α : Type) where
  | leaf
  | node (left : BTree α) (val : α) (right : BTree α)
deriving DecidableEq

/-- The `BST._insert` method from binary_search_tree.py: insert into the subtree rooted
at the given node, ignoring duplicates (`val == node.val` returns the node
unchanged). -/
def BTree.insert {α : Type} [LinearOrder α] : BTree α → α → BTree α
  | .leaf, v => .node .leaf v .leaf
  | .node l x r, v =>
      if v < x then .node (BTree.insert l v) x r
      else if v > x then .node l x (BTree.insert r v)
      else .node l x r

/-- The `BST._search` method from binary_search_tree.py: recursive membership test. -/
def BTree.search {α : Type} [LinearOrder α] : BTree α → α → Bool
  | .leaf, _ => false
  | .node l x r, v =>
      if v = x then true
      else if v < x then BTree.search l v
      else BTree.search r v

/-- The `while node is not None` loop of `BST.search_iterative`, with the
current node as the loop state. -/
def searchLoop {α : Type} [LinearOrder α] : BTree α → α → Bool
  | .leaf, _ => false
  | .node l x r, v =>
      if v = x then true
      else if v < x then searchLoop l v
      else searchLoop r v

/-- The `BST.search_iterative` method from binary_search_tree.py: start the loop at the
root. -/
def BTree.search_iterative {α : Type} [LinearOrder α] (t : BTree α) (v : α) : Bool :=
  searchLoop t v

/-- The `BST.inorder_traversal` method from binary_search_tree.py. -/
def BTree.inorder_traversal {α : Type} : BTree α → List α
  | .leaf => []
  | .node l x r => BTree.inorder_traversal l ++ x :: BTree.inorder_traversal r

/-- A `BST()` populated by `insert` calls for each element of `vs` in order
(root starts as `None`, i.e. `leaf`). -/
def buildBST {α : Type} [LinearOrder α] (vs : List α) : BTree α :=
  vs.foldl BTree.insert .leaf

/-- All values in the tree satisfy `p`. -/
def ForallT {α : Type} (p : α → Prop) : BTree α → Prop
  | .leaf => True
  | .node l x r => ForallT p l ∧ p x ∧ ForallT p r

/-- The BST invariant from the class docstring: left values smaller, right
values larger, recursively. -/
def IsBST {α : Type} [LinearOrder α] : BTree α → Prop
  | .leaf => True
  | .node l x r =>
      ForallT (· < x) l ∧ ForallT (x < ·) r ∧ IsBST l ∧ IsBST r

/- ------------------------------------------------------------------------ -/
/- Part 2: the mq pattern matcher and pub/sub dispatch                       -/
/- ------------------------------------------------------------------------ -/

/-- Modelled from the spec: the `mq` package is not in the repository (only
its test suite is).  Dot-segmentation of patterns and message types (spec
§4.4): both are "dot-segmented token sequences", i.e. the result of
splitting the string on the dot character. -/
def splitSegs : List Char → List (List Char)
  | [] => [[]]
  | c :: r =>
      if c = '.' then [] :: splitSegs r
      else
        match splitSegs r with
        | [] => [[c]]
        | s :: ss => (c :: s) :: ss

/-- Modelled from the spec: the missing `mq` pattern matcher (§4.4).  "A
pattern matches a type if and only if: both have the same number of
segments, and each pattern segment is either the literal wildcard token
(matches any single segment) or equal to the corresponding type segment."
Matching is case-sensitive; the wildcard token is `*`. -/
def patternMatches (pat ty : String) : Bool :=
  let ps := splitSegs pat.data
  let ts := splitSegs ty.data
  ps.length == ts.length &&
    (ps.zip ts).all fun seg => seg.1 == ['*'] || seg.1 == seg.2

/-- Modelled from the spec: pub/sub dispatch on a bus (§4.5) — `publish`
"delivers ... to every registered handler whose pattern matches
`message.type`".  Handlers are opaque callbacks, modelled by identifiers;
the result lists one entry per delivery. -/
def dispatch (subs : List (String × Nat)) (msgType : String) : List Nat :=
  (subs.filter fun s => patternMatches s.1 msgType).map Prod.snd

/-- Deliveries of a sequence of publishes, in order. -/
def dispatchAll (subs : List (String × Nat)) (types : List String) : List Nat :=
  match types with
  | [] => []
  | t :: ts => dispatch subs t ++ dispatchAll subs ts

/- ------------------------------------------------------------------------ -/
/- Part 3: the mq configuration model                                        -/
/- ------------------------------------------------------------------------ -/

/-- Modelled from the spec (§3): the missing `mq.config.models.BrokerConfig`
— a type tag plus backend-specific parameters (opaque here). -/
structure BrokerConfig where
  type : String
deriving DecidableEq

/-- Modelled from the spec (§3): pubsub capability block of a bus. -/
structure PubSubConfig where
  topics : List String
deriving DecidableEq

/-- Modelled from the spec (§3): stream capability block of a bus. -/
structure StreamConfig where
  streams : List String
  consumer_group : String
  consumer_name : String
deriving DecidableEq

/-- Modelled from the spec (§3): reserved `delayed` capability — interface
only, no behaviour beyond validation. -/
structure DelayedConfig where
deriving DecidableEq

/-- Modelled from the spec (§3): the missing `mq.config.models.BusConfig`. -/
structure BusConfig where
  broker : String
  pubsub : Option PubSubConfig
  stream : Option StreamConfig
  delayed : Option DelayedConfig
deriving DecidableEq

/-- Modelled from the spec (§3): the missing `mq.config.models.MQConfig`
value as produced by a successful construction. -/
structure MQConfig where
  brokers : List (String × BrokerConfig)
  buses : List (String × BusConfig)
deriving DecidableEq

/-- Modelled from the spec (§7): the `ConfigError` taxonomy entries used by
`MQConfig` validation. -/
inductive ConfigError where
  | unknownBroker (bus : String)
  | noCapability (bus : String)
deriving DecidableEq

/-- A bus declares at least one of the three capabilities. -/
def busHasCapability (bc : BusConfig) : Bool :=
  bc.pubsub.isSome || bc.stream.isSome || bc.delayed.isSome

/-- Modelled from the spec (§4.2): the missing `MQConfig` constructor.
"Validation runs at construction: fails with `ConfigError` if any bus
references an unknown broker; fails with `ConfigError` if a bus declares
none of the three capabilities" — otherwise the validated value is
produced. -/
def mkMQConfig (brokers : List (String × BrokerConfig))
    (buses : List (String × BusConfig)) : Except ConfigError MQConfig :=
  match buses.find? (fun b => (List.lookup b.2.broker brokers).isNone) with
  | some b => .error (.unknownBroker b.1)
  | none =>
      match buses.find? (fun b => !busHasCapability b.2) with
      | some b => .error (.noCapability b.1)
      | none => .ok ⟨brokers, buses⟩

/- ------------------------------------------------------------------------ -/
/- Part 4: the mq Message envelope and its two encodings                     -/
/- ------------------------------------------------------------------------ -/

inductive JValue where
  | null
  | bool (b : Bool)
  | num (n : Int)
  | str (s : String)
  | arr (xs : List JValue)
  | obj (kvs : List (String × JValue))

def escapeChar (c : Char) : List Char :=
  if c = '"' ∨ c = '\\' then ['\\', c] else [c]

def escapeList : List Char → List Char
  | [] => []
  | c :: cs => escapeChar c ++ escapeList cs

def renderString (s : String) : List Char :=
  '"' :: (escapeList s.data ++ ['"'])

def natChars (n : Nat) : List Char :=
  if n < 10 then [Nat.digitChar n]
  else natChars (n / 10) ++ [Nat.digitChar (n % 10)]
termination_by n
decreasing_by omega

def intChars (i : Int) : List Char :=
  if i < 0 then '-' :: natChars i.natAbs else natChars i.natAbs

mutual
def renderV : JValue → List Char
  | .num n => intChars n
  | .str s => renderString s
  | .arr xs => '[' :: (renderItems xs ++ [']'])
  | .obj kvs => '{' :: (renderEntries kvs ++ ['}'])
  | .null => 'n' :: ['u', 'l', 'l']
  | .bool b => if b then 't' :: ['r', 'u', 'e'] else 'f' :: ['a', 'l', 's', 'e']
def renderItems : List JValue → List Char
  | [] => []
  | x :: xs => renderV x ++ sepItems xs
def sepItems : List JValue → List Char
  | [] => []
  | x :: xs => ',' :: (renderV x ++ sepItems xs)
def renderEntries : List (String × JValue) → List Char
  | [] => []
  | (k, v) :: kvs => renderString k ++ ':' :: (renderV v ++ sepEntries kvs)
def sepEntries : List (String × JValue) → List Char
  | [] => []
  | (k, v) :: kvs => ',' :: (renderString k ++ ':' :: (renderV v ++ sepEntries kvs))
end

def readDigits : List Char → List Char × List Char
  | [] => ([], [])
  | c :: cs =>
      if c.isDigit then
        let p := readDigits cs
        (c :: p.1, p.2)
      else ([], c :: cs)

def digitsVal (ds : List Char) : Nat :=
  ds.foldl (fun a c => 10 * a + (c.toNat - 48)) 0

def readInt : List Char → Option (Int × List Char)
  | '-' :: r =>
      match readDigits r with
      | ([], _) => none
      | (ds, r') => some (-(digitsVal ds : Int), r')
  | cs =>
      match readDigits cs with
      | ([], _) => none
      | (ds, r') => some ((digitsVal ds : Int), r')

def readString (acc : List Char) : List Char → Option (String × List Char)
  | [] => none
  | '\\' :: c :: r => readString (c :: acc) r
  | '"' :: r => some (⟨acc.reverse⟩, r)
  | c :: r => readString (c :: acc) r

def kwNull : List Char → Option (JValue × List Char)
  | 'u' :: 'l' :: 'l' :: r => some (.null, r)
  | _ => none

def kwTrue : List Char → Option (JValue × List Char)
  | 'r' :: 'u' :: 'e' :: r => some (.bool true, r)
  | _ => none

def kwFalse : List Char → Option (JValue × List Char)
  | 'a' :: 'l' :: 's' :: 'e' :: r => some (.bool false, r)
  | _ => none

mutual
def parseV : Nat → List Char → Option (JValue × List Char)
  | 0, _ => none
  | _ + 1, [] => none
  | f + 1, c :: r =>
      if c = 'n' then kwNull r
      else if c = 't' then kwTrue r
      else if c = 'f' then kwFalse r
      else if c = '"' then
        (readString [] r).map fun p => (.str p.1, p.2)
      else if c = '[' then
        if r.head? = some ']' then some (.arr [], r.tail)
        else (parseItems f r).map fun p => (.arr p.1, p.2)
      else if c = '{' then
        if r.head? = some '}' then some (.obj [], r.tail)
        else (parseEntries f r).map fun p => (.obj p.1, p.2)
      else if c = '-' ∨ c.isDigit then
        (readInt (c :: r)).map fun p => (.num p.1, p.2)
      else none
def parseItems : Nat → List Char → Option (List JValue × List Char)
  | 0, _ => none
  | f + 1, cs =>
      match parseV f cs with
      | none => none
      | some (v, r) =>
          match r with
          | ',' :: r' => (parseItems f r').map fun p => (v :: p.1, p.2)
          | ']' :: r' => some ([v], r')
          | _ => none
def parseEntries : Nat → List Char → Option (List (String × JValue) × List Char)
  | 0, _ => none
  | f + 1, cs =>
      match cs with
      | '"' :: r =>
          match readString [] r with
          | none => none
          | some (k, r1) =>
              match r1 with
              | ':' :: r2 =>
                  match parseV f r2 with
                  | none => none
                  | some (v, r3) =>
                      match r3 with
                      | ',' :: r4 => (parseEntries f r4).map fun p => ((k, v) :: p.1, p.2)
                      | '}' :: r4 => some ([(k, v)], r4)
                      | _ => none
              | _ => none
      | _ => none
end

def digitFree : List Char → Prop
  | [] => True
  | c :: _ => c.isDigit = false

mutual
def sizeV : JValue → Nat
  | .null => 1
  | .bool _ => 1
  | .num _ => 1
  | .str _ => 1
  | .arr xs => sizeItems xs + 1
  | .obj kvs => sizeEntries kvs + 1
def sizeItems : List JValue → Nat
  | [] => 1
  | x :: xs => sizeV x + sizeItems xs
def sizeEntries : List (String × JValue) → Nat
  | [] => 1
  | (_, v) :: kvs => sizeV v + sizeEntries kvs
end

inductive FormatError where
  | notStructured
  | missingType
  | badField
deriving DecidableEq

structure Message where
  id : String
  type : String
  payload : List (String × JValue)
  headers : List (String × String)
  timestamp : String

def Message.to_dict (m : Message) : List (String × JValue) :=
  [("id", .str m.id), ("type", .str m.type), ("payload", .obj m.payload),
   ("headers", .obj (m.headers.map fun kv => (kv.1, .str kv.2))),
   ("timestamp", .str m.timestamp)]

def getStrField (d : List (String × JValue)) (k dflt : String) :
    Except FormatError String :=
  match List.lookup k d with
  | none => .ok dflt
  | some (.str s) => .ok s
  | some _ => .error .badField

def getObjField (d : List (String × JValue)) (k : String) :
    Except FormatError (List (String × JValue)) :=
  match List.lookup k d with
  | none => .ok []
  | some (.obj o) => .ok o
  | some _ => .error .badField

def strEntries : List (String × JValue) → Except FormatError (List (String × String))
  | [] => .ok []
  | (k, .str v) :: rest =>
      match strEntries rest with
      | .ok tl => .ok ((k, v) :: tl)
      | .error e => .error e
  | _ => .error .badField

def Message.from_dict (d : List (String × JValue)) : Except FormatError Message :=
  match List.lookup "type" d with
  | some (.str ty) =>
      match getStrField d "id" "" with
      | .error e => .error e
      | .ok i =>
          match getObjField d "payload" with
          | .error e => .error e
          | .ok pl =>
              match getObjField d "headers" with
              | .error e => .error e
              | .ok ho =>
                  match strEntries ho with
                  | .error e => .error e
                  | .ok hs =>
                      match getStrField d "timestamp" "" with
                      | .error e => .error e
                      | .ok ts => .ok ⟨i, ty, pl, hs, ts⟩
  | some _ => .error .badField
  | none => .error .missingType

def Message.to_json (m : Message) : String :=
  ⟨renderV (.obj m.to_dict)⟩

def Message.from_json (s : String) : Except FormatError Message :=
  match parseV (s.data.length + 1) s.data with
  | some (.obj d, []) => Message.from_dict d
  | _ => .error .notStructured


/- ------------------------------------------------------------------------ -/
/- Part 5: the mq bus registry, decorators and the in-memory stream broker   -/
/- ------------------------------------------------------------------------ -/

/-- Modelled from the spec (§3): the kind tag in a pending-handler record —
"kind distinguishes pub/sub handlers from stream handlers because they
attach to different dispatch paths". -/
inductive HandlerKind where
  | pubsub
  | stream
deriving DecidableEq

/-- Modelled from the spec (§3): one record of the pending-handler buffer:
bus name, pattern (or stream topic), handler, kind.  Handlers are opaque
callbacks, modelled by identifiers. -/
structure PendingHandler where
  bus : String
  pattern : String
  handler : Nat
  kind : HandlerKind
deriving DecidableEq

/-- Modelled from the spec (§3, §4.5): the runtime `Bus` entity — registry
name, bound configuration, registered pub/sub subscriptions and stream
handlers, lifecycle flag. -/
structure BusInst where
  name : String
  config : BusConfig
  subs : List (String × Nat)
  streamSubs : List (String × Nat)
  started : Bool
deriving DecidableEq

/-- Modelled from the spec (§3): the process-wide registry state — installed
factory configuration, lazily populated instance cache, pending-handler
buffer — plus a construction counter that observes each `Bus` construction
(it only ever increases when a bus is actually built). -/
structure Registry where
  factory : Option MQConfig
  instances : List (String × BusInst)
  pending : List PendingHandler
  constructions : Nat
deriving DecidableEq

/-- Modelled from the spec (§7): the two registry failure modes — the
not-initialized `RuntimeError` and the not-found `KeyError`. -/
inductive RegErr where
  | notInit
  | notFound
deriving DecidableEq

/-- Modelled from the spec (§4.6): `setup_bus_factory(config)` — install the
active configuration, replacing any previously installed one. -/
def setup_bus_factory (r : Registry) (cfg : MQConfig) : Registry :=
  { factory := some cfg, instances := r.instances, pending := r.pending,
    constructions := r.constructions }

/-- The pending-handler records buffered under bus name `n`, in order. -/
def pendingFor (pend : List PendingHandler) (n : String) : List PendingHandler :=
  pend.filter fun p => p.bus == n

/-- Modelled from the spec (§4.5): direct registration of a handler on a
constructed bus, on the dispatch path selected by the kind. -/
def BusInst.register (b : BusInst) (kd : HandlerKind) (pat : String) (hid : Nat) : BusInst :=
  match kd with
  | .pubsub =>
      { name := b.name, config := b.config, subs := b.subs ++ [(pat, hid)],
        streamSubs := b.streamSubs, started := b.started }
  | .stream =>
      { name := b.name, config := b.config, subs := b.subs,
        streamSubs := b.streamSubs ++ [(pat, hid)], started := b.started }

/-- Modelled from the spec (§4.5): `on(pattern, handler)` — pub/sub handler
registration on a constructed bus. -/
def BusInst.on (b : BusInst) (pat : String) (hid : Nat) : BusInst :=
  b.register .pubsub pat hid

/-- Modelled from the spec (§4.5): `start()` — transition to `started`. -/
def BusInst.start (b : BusInst) : BusInst :=
  { name := b.name, config := b.config, subs := b.subs,
    streamSubs := b.streamSubs, started := true }

/-- The handler list of the dispatch path selected by a kind. -/
def busHandlers (kd : HandlerKind) (b : BusInst) : List (String × Nat) :=
  match kd with
  | .pubsub => b.subs
  | .stream => b.streamSubs

/-- Modelled from the spec (§4.6): construction of a named bus from the
active configuration — bind the named `BusConfig` (`none` when the name is
not configured) and drain the pending handlers buffered under the name into
the dispatch path their kind selects. -/
def constructBus (cfg : MQConfig) (n : String) (pend : List PendingHandler) :
    Option BusInst :=
  (List.lookup n cfg.buses).map fun bc =>
    { name := n, config := bc,
      subs := ((pendingFor pend n).filter fun p => p.kind == HandlerKind.pubsub).map
        fun p => (p.pattern, p.handler),
      streamSubs := ((pendingFor pend n).filter fun p => p.kind == HandlerKind.stream).map
        fun p => (p.pattern, p.handler),
      started := false }

/-- Modelled from the spec (§4.6): `get(name)` — return the cached instance
when present; otherwise fail not-initialized without a factory, fail
not-found for an unconfigured name, or construct the bus, drain and clear
the pending buffer for the name, cache the instance and count the
construction.  The registry is returned unchanged on a cache hit or a
failure. -/
def Registry.get (r : Registry) (n : String) : Except RegErr BusInst × Registry :=
  match List.lookup n r.instances with
  | some b => (.ok b, r)
  | none =>
      match r.factory with
      | none => (.error .notInit, r)
      | some cfg =>
          match constructBus cfg n r.pending with
          | none => (.error .notFound, r)
          | some b =>
              (.ok b,
               { factory := r.factory,
                 instances := r.instances ++ [(n, b)],
                 pending := r.pending.filter fun p => !(p.bus == n),
                 constructions := r.constructions + 1 })

/-- Modelled from the spec (§4.6): `resolve(name)` — synchronous cache-only
lookup, not-found when the name was never constructed; it never constructs
anything. -/
def Registry.resolve (r : Registry) (n : String) : Except RegErr BusInst :=
  match List.lookup n r.instances with
  | some b => .ok b
  | none => .error .notFound

/-- Modelled from the spec (§4.6): the decorator entry points
(`subscriber(bus_name, pattern)` / `stream_handler(bus_name, topic)`): if
the bus is already constructed, register directly on it; otherwise append a
record to the pending-handler buffer for later draining by `get`. -/
def Registry.addHandler (r : Registry) (n pat : String) (hid : Nat)
    (kd : HandlerKind) : Registry :=
  match List.lookup n r.instances with
  | some b =>
      { factory := r.factory,
        instances := r.instances.map fun kv =>
          if kv.1 == n then (n, b.register kd pat hid) else kv,
        pending := r.pending, constructions := r.constructions }
  | none =>
      { factory := r.factory, instances := r.instances,
        pending := r.pending ++ [⟨n, pat, hid, kd⟩],
        constructions := r.constructions }

/-- Modelled from the spec (§4.6): the `subscriber` decorator. -/
def Registry.subscriber (r : Registry) (n pat : String) (hid : Nat) : Registry :=
  r.addHandler n pat hid .pubsub

/-- Modelled from the spec (§4.6): the `stream_handler` decorator. -/
def Registry.stream_handler (r : Registry) (n topic : String) (hid : Nat) : Registry :=
  r.addHandler n topic hid .stream

/-- Modelled from the spec (§4.3): the in-memory broker's state for one
stream and one consumer group — an append-only entry sequence with the
group's read cursor; entries before the cursor have been delivered to the
group and acknowledged. -/
structure StreamState where
  entries : List Message
  cursor : Nat

/-- Modelled from the spec (§4.3): the in-memory consume loop — deliver
every entry from the group cursor on to the registered handler, advancing
the cursor past each successfully handled entry.  Returns the new state and
the deliveries made, in order. -/
def consumeLoop (st : StreamState) : StreamState × List Message :=
  (⟨st.entries, st.entries.length⟩, st.entries.drop st.cursor)

/-- Modelled from the spec (§4.3): the entry identifier returned by a stream
append — the 1-based position of the appended entry in decimal, "a
monotonically meaningful identifier". -/
def entryId (k : Nat) : String :=
  ⟨natChars k⟩

/-- Modelled from the spec (§4.5, §4.3): `send(message)` on a stream bus —
append to the configured stream and return the entry identifier; the
in-memory broker drives the consume loop eagerly, so the registered stream
handler observes the delivery before `send` returns.  Result: entry
identifier, new stream state, deliveries observed by the handler during
this `send`. -/
def sendStream (st : StreamState) (m : Message) : String × StreamState × List Message :=
  let appended : StreamState := ⟨st.entries ++ [m], st.cursor⟩
  let r := consumeLoop appended
  (entryId (st.entries.length + 1), r.1, r.2)


/-- A concrete configuration mirroring the test fixture: one `memory` broker
and a pub/sub bus named `events`. -/
def fixtureCfg : MQConfig :=
  ⟨[("test", ⟨"memory"⟩)], [("events", ⟨"test", some ⟨["order.*", "payment.*"]⟩, none, none⟩)]⟩

/-- A fresh registry with the fixture configuration installed. -/
def fixtureReg : Registry := ⟨some fixtureCfg, [], [], 0⟩

/- ------------------------------------------------------------------------ -/
/- Theorems                                                                  -/
/- ------------------------------------------------------------------------ -/

theorem forallT_iff_inorder {α : Type} (p : α → Prop) (t : BTree α) :
    ForallT p t ↔ ∀ a ∈ t.inorder_traversal, p a := by
  induction t with
  | leaf => simp [ForallT, BTree.inorder_traversal]
  | node l x r ihl ihr =>
      simp only [ForallT, BTree.inorder_traversal, List.mem_append, List.mem_cons, ihl, ihr]
      constructor
      · rintro ⟨hl, hx, hr⟩ a (ha | rfl | ha)
        · exact hl a ha
        · exact hx
        · exact hr a ha
      · intro h
        exact ⟨fun a ha => h a (Or.inl ha), h x (Or.inr (Or.inl rfl)),
               fun a ha => h a (Or.inr (Or.inr ha))⟩

theorem forallT_insert {α : Type} [LinearOrder α] (p : α → Prop) (t : BTree α) (v : α)
    (ht : ForallT p t) (hv : p v) : ForallT p (t.insert v) := by
  induction t with
  | leaf => exact ⟨trivial, hv, trivial⟩
  | node l x r ihl ihr =>
      obtain ⟨hl, hx, hr⟩ := ht
      by_cases h1 : v < x
      · simpa [BTree.insert, h1] using ⟨ihl hl, hx, hr⟩
      · by_cases h2 : v > x
        · simpa [BTree.insert, h1, h2] using ⟨hl, hx, ihr hr⟩
        · simpa [BTree.insert, h1, h2] using ⟨hl, hx, hr⟩

theorem isBST_insert {α : Type} [LinearOrder α] (t : BTree α) (v : α)
    (ht : IsBST t) : IsBST (t.insert v) := by
  induction t with
  | leaf => exact ⟨trivial, trivial, trivial, trivial⟩
  | node l x r ihl ihr =>
      obtain ⟨hl, hr, hbl, hbr⟩ := ht
      by_cases h1 : v < x
      · simpa [BTree.insert, h1] using ⟨forallT_insert _ _ _ hl h1, hr, ihl hbl, hbr⟩
      · by_cases h2 : v > x
        · simpa [BTree.insert, h1, h2] using ⟨hl, forallT_insert _ _ _ hr h2, hbl, ihr hbr⟩
        · simpa [BTree.insert, h1, h2] using ⟨hl, hr, hbl, hbr⟩

theorem mem_inorder_insert {α : Type} [LinearOrder α] (t : BTree α) (v a : α) :
    a ∈ (t.insert v).inorder_traversal ↔ a = v ∨ a ∈ t.inorder_traversal := by
  induction t with
  | leaf => simp [BTree.insert, BTree.inorder_traversal]
  | node l x r ihl ihr =>
      by_cases h1 : v < x
      · simp only [BTree.insert, h1, if_pos, BTree.inorder_traversal, List.mem_append,
          List.mem_cons, ihl]
        tauto
      · by_cases h2 : v > x
        · simp only [BTree.insert, h1, if_neg, if_pos h2, BTree.inorder_traversal,
            List.mem_append, List.mem_cons, ihr, not_false_iff]
          tauto
        · have hvx : v = x := le_antisymm (not_lt.mp h2) (not_lt.mp h1)
          subst hvx
          simp only [BTree.insert, h1, h2, if_neg, BTree.inorder_traversal, List.mem_append,
            List.mem_cons, not_false_iff]
          tauto

theorem sorted_inorder {α : Type} [LinearOrder α] (t : BTree α) (ht : IsBST t) :
    t.inorder_traversal.Sorted (· < ·) := by
  induction t with
  | leaf => simp [BTree.inorder_traversal]
  | node l x r ihl ihr =>
      obtain ⟨hl, hr, hbl, hbr⟩ := ht
      rw [forallT_iff_inorder] at hl hr
      have hsl := ihl hbl
      have hsr := ihr hbr
      rw [BTree.inorder_traversal, List.Sorted, List.pairwise_append]
      refine ⟨hsl, ?_, ?_⟩
      · rw [List.pairwise_cons]
        exact ⟨hr, hsr⟩
      · intro a ha b hb
        rcases List.mem_cons.mp hb with rfl | hb
        · exact hl a ha
        · exact lt_trans (hl a ha) (hr b hb)

theorem insert_mem_eq {α : Type} [LinearOrder α] (t : BTree α) (v : α)
    (ht : IsBST t) (hv : v ∈ t.inorder_traversal) : t.insert v = t := by
  induction t with
  | leaf => simp [BTree.inorder_traversal] at hv
  | node l x r ihl ihr =>
      obtain ⟨hl, hr, hbl, hbr⟩ := ht
      rw [forallT_iff_inorder] at hl hr
      rw [BTree.inorder_traversal, List.mem_append, List.mem_cons] at hv
      by_cases h1 : v < x
      · have hvl : v ∈ l.inorder_traversal := by
          rcases hv with hv | rfl | hv
          · exact hv
          · exact absurd h1 (lt_irrefl v)
          · exact absurd (lt_trans h1 (hr v hv)) (lt_irrefl v)
        simp [BTree.insert, h1, ihl hbl hvl]
      · by_cases h2 : v > x
        · have hvr : v ∈ r.inorder_traversal := by
            rcases hv with hv | rfl | hv
            · exact absurd (lt_trans h2 (hl v hv)) (lt_irrefl _)
            · exact absurd h2 (lt_irrefl _)
            · exact hv
          simp [BTree.insert, h1, h2, ihr hbr hvr]
        · simp [BTree.insert, h1, h2]

theorem isBST_build {α : Type} [LinearOrder α] (vs : List α) : IsBST (buildBST vs) := by
  have h : ∀ (l : List α) (t : BTree α), IsBST t → IsBST (l.foldl BTree.insert t) := by
    intro l
    induction l with
    | nil => intro t ht; exact ht
    | cons v l ih => intro t ht; exact ih _ (isBST_insert t v ht)
  exact h vs .leaf trivial

theorem mem_build {α : Type} [LinearOrder α] (vs : List α) (a : α) :
    a ∈ (buildBST vs).inorder_traversal ↔ a ∈ vs := by
  have h : ∀ (l : List α) (t : BTree α),
      a ∈ (l.foldl BTree.insert t).inorder_traversal ↔
        a ∈ l ∨ a ∈ t.inorder_traversal := by
    intro l
    induction l with
    | nil => simp
    | cons v l ih =>
        intro t
        rw [List.foldl_cons, ih, mem_inorder_insert]
        simp only [List.mem_cons]
        tauto
  rw [buildBST, h vs .leaf]
  simp [BTree.inorder_traversal]

theorem search_eq_loop {α : Type} [LinearOrder α] (t : BTree α) (v : α) :
    t.search v = searchLoop t v := by
  induction t with
  | leaf => rfl
  | node l x r ihl ihr => simp [BTree.search, searchLoop, ihl, ihr]

/-- C9: for every binary search tree built by any sequence of `BST.insert`
calls and every value `v`, `BST.search(v)` and `BST.search_iterative(v)`
return the same boolean result. -/
theorem search_eq_search_iterative {α : Type} [LinearOrder α] (vs : List α) (v : α) :
    (buildBST vs).search v = (buildBST vs).search_iterative v :=
  search_eq_loop (buildBST vs) v

/-- C10: inserting any sequence of values into an initially empty BST makes
`inorder_traversal` return exactly the distinct inserted values in strictly
increasing order, and inserting a value already present leaves the tree
unchanged. -/
theorem build_inorder_sorted_distinct {α : Type} [LinearOrder α] (vs : List α) :
    (buildBST vs).inorder_traversal.Sorted (· < ·) ∧
    (buildBST vs).inorder_traversal.Nodup ∧
    (∀ a : α, a ∈ (buildBST vs).inorder_traversal ↔ a ∈ vs) ∧
    (∀ v : α, v ∈ (buildBST vs).inorder_traversal →
      (buildBST vs).insert v = buildBST vs) := by
  have hs := sorted_inorder (buildBST vs) (isBST_build vs)
  exact ⟨hs, hs.nodup, fun a => mem_build vs a,
    fun v hv => insert_mem_eq (buildBST vs) v (isBST_build vs) hv⟩

/-- Witness for C10 at the concrete insert sequence `[50, 30, 70, 30]`. -/
theorem build_inorder_sorted_distinct_witness :
    ((50 : Int) ∈ (buildBST [50, 30, 70, 30]).inorder_traversal) ∧
    (buildBST [50, 30, 70, 30]).insert 50 = buildBST [50, 30, 70, 30] := by
  refine ⟨by decide, ?_⟩
  exact (build_inorder_sorted_distinct [50, 30, 70, 30]).2.2.2 50 (by decide)

theorem patternMatches_forall₂ (p t : String) :
    patternMatches p t = true ↔
      List.Forall₂ (fun a b => a = ['*'] ∨ a = b) (splitSegs p.data) (splitSegs t.data) := by
  rw [List.forall₂_iff_zip, patternMatches]
  simp only [Bool.and_eq_true, beq_iff_eq, List.all_eq_true, Bool.or_eq_true]
  constructor
  · rintro ⟨hlen, hall⟩
    exact ⟨hlen, fun {a b} hab => hall (a, b) hab⟩
  · rintro ⟨hlen, hall⟩
    exact ⟨hlen, fun x hx => hall hx⟩

theorem dispatch_single_count (p t : String) (h : Nat) :
    (dispatch [(p, h)] t).count h = if patternMatches p t then 1 else 0 := by
  by_cases hm : patternMatches p t
  · simp [dispatch, List.filter_cons, hm]
  · simp [dispatch, List.filter_cons, hm]

/-- C1: a handler registered with pattern `p` receives a published message of
type `t` exactly once per publish iff `p` and `t` have the same number of
dot-separated segments and each segment of `p` is the wildcard token or equal
to the corresponding segment of `t`; with a handler subscribed to `order.*`,
publishing `order.created`, `order.updated` and `payment.received` yields
exactly two deliveries. -/
theorem pubsub_wildcard_dispatch :
    (∀ (p t : String) (h : Nat),
      (dispatch [(p, h)] t).count h = 1 ↔
        ((splitSegs p.data).length = (splitSegs t.data).length ∧
         ∀ (i : Nat) (h1 : i < (splitSegs p.data).length)
           (h2 : i < (splitSegs t.data).length),
           (splitSegs p.data).get ⟨i, h1⟩ = ['*'] ∨
           (splitSegs p.data).get ⟨i, h1⟩ = (splitSegs t.data).get ⟨i, h2⟩)) ∧
    (dispatchAll [("order.*", 0)]
        ["order.created", "order.updated", "payment.received"]).count 0 = 2 := by
  constructor
  · intro p t h
    rw [dispatch_single_count]
    rw [show ((if patternMatches p t then 1 else 0) = 1 ↔ patternMatches p t = true) from
      by by_cases hm : patternMatches p t <;> simp [hm]]
    rw [patternMatches_forall₂, List.forall₂_iff_get]
  · decide

/-- C3: `MQConfig` construction fails with a `ConfigError` exactly when some
bus references an unknown broker or declares no capability, and succeeds
(eagerly producing the validated configuration) when every bus references a
known broker and declares at least one capability. -/
theorem mkMQConfig_validation (brokers : List (String × BrokerConfig))
    (buses : List (String × BusConfig)) :
    ((∃ e, mkMQConfig brokers buses = Except.error e) ↔
       ∃ b ∈ buses, List.lookup b.2.broker brokers = none ∨
         (b.2.pubsub = none ∧ b.2.stream = none ∧ b.2.delayed = none)) ∧
    ((∀ b ∈ buses, (List.lookup b.2.broker brokers).isSome ∧
         (b.2.pubsub.isSome ∨ b.2.stream.isSome ∨ b.2.delayed.isSome)) →
       mkMQConfig brokers buses = Except.ok ⟨brokers, buses⟩) := by
  constructor
  · constructor
    · rintro ⟨e, he⟩
      rw [mkMQConfig] at he
      split at he
      · rename_i b1 hf1
        refine ⟨b1, List.mem_of_find?_eq_some hf1, Or.inl ?_⟩
        have hp1 := List.find?_some hf1
        simpa [Option.isNone_iff_eq_none] using hp1
      · split at he
        · rename_i b2 hf2
          have hp2 := List.find?_some hf2
          simp only [Bool.not_eq_true', busHasCapability, Bool.or_eq_false_iff] at hp2
          refine ⟨b2, List.mem_of_find?_eq_some hf2, Or.inr ?_⟩
          refine ⟨?_, ?_, ?_⟩
          · simpa [Option.isNone_iff_eq_none] using hp2.1.1
          · simpa [Option.isNone_iff_eq_none] using hp2.1.2
          · simpa [Option.isNone_iff_eq_none] using hp2.2
        · exact absurd he (by simp)
    · rintro ⟨b, hb, hbad⟩
      rw [mkMQConfig]
      split
      · exact ⟨_, rfl⟩
      · split
        · exact ⟨_, rfl⟩
        · exfalso
          rename_i hf2
          have hf1 : List.find? (fun b => (List.lookup b.2.broker brokers).isNone) buses
              = none := by assumption
          rw [List.find?_eq_none] at hf1 hf2
          rcases hbad with hbad | hbad
          · exact hf1 b hb (by simp [hbad])
          · exact hf2 b hb (by simp [busHasCapability, hbad.1, hbad.2.1, hbad.2.2])
  · intro hok
    rw [mkMQConfig]
    have hf1 : buses.find? (fun b => (List.lookup b.2.broker brokers).isNone) = none := by
      rw [List.find?_eq_none]
      intro b hb
      simp [Option.isNone_iff_eq_none, Option.isSome_iff_ne_none.mp (hok b hb).1]
    have hf2 : buses.find? (fun b => !busHasCapability b.2) = none := by
      rw [List.find?_eq_none]
      intro b hb
      rcases (hok b hb).2 with h | h | h <;> simp [busHasCapability, h]
    rw [hf1, hf2]

/-- Witness for C3 at a concrete two-bus configuration with a known broker
and at least one capability each. -/
theorem mkMQConfig_validation_witness :
    mkMQConfig [("test", ⟨"memory"⟩)]
      [("events", ⟨"test", some ⟨["order.*", "payment.*"]⟩, none, none⟩),
       ("orders", ⟨"test", none,
          some ⟨["order.created", "order.updated"], "test-group", "test-worker"⟩, none⟩)] =
    Except.ok ⟨[("test", ⟨"memory"⟩)],
      [("events", ⟨"test", some ⟨["order.*", "payment.*"]⟩, none, none⟩),
       ("orders", ⟨"test", none,
          some ⟨["order.created", "order.updated"], "test-group", "test-worker"⟩, none⟩)]⟩ :=
  (mkMQConfig_validation _ _).2 (by decide)

theorem digitChar_facts : ∀ k < 10, (Nat.digitChar k).isDigit = true ∧
    (Nat.digitChar k).toNat = k + 48 := by decide

theorem natChars_unfold (n : Nat) :
    natChars n = (if n < 10 then [] else natChars (n / 10)) ++ [Nat.digitChar (n % 10)] := by
  rw [natChars]
  by_cases h : n < 10
  · simp [h, Nat.mod_eq_of_lt h]
  · simp [h]

theorem natChars_ne_nil (n : Nat) : natChars n ≠ [] := by
  rw [natChars_unfold]; simp

theorem natChars_digits (n : Nat) : ∀ c ∈ natChars n, c.isDigit = true := by
  induction n using Nat.strong_induction_on with
  | _ n ih =>
    rw [natChars_unfold]
    intro c hc
    rcases List.mem_append.mp hc with hc | hc
    · by_cases h : n < 10
      · simp [h] at hc
      · exact ih (n / 10) (by omega) c (by simpa [h] using hc)
    · rw [List.mem_singleton] at hc
      subst hc
      exact (digitChar_facts (n % 10) (Nat.mod_lt _ (by omega))).1

theorem digitsVal_natChars (n : Nat) : digitsVal (natChars n) = n := by
  induction n using Nat.strong_induction_on with
  | _ n ih =>
    rw [natChars_unfold, digitsVal, List.foldl_append]
    by_cases h : n < 10
    · simp only [if_pos h, List.foldl_nil, List.foldl_cons]
      rw [(digitChar_facts (n % 10) (Nat.mod_lt _ (by omega))).2]
      omega
    · simp only [if_neg h, List.foldl_cons, List.foldl_nil]
      have := ih (n / 10) (by omega)
      rw [digitsVal] at this
      rw [this, (digitChar_facts (n % 10) (Nat.mod_lt _ (by omega))).2]
      omega

theorem readDigits_stop (cs : List Char) (h : digitFree cs) : readDigits cs = ([], cs) := by
  match cs with
  | [] => rfl
  | c :: t =>
      rw [digitFree] at h
      rw [readDigits, if_neg (by simp [h])]

theorem readDigits_run (ds : List Char) (hds : ∀ c ∈ ds, c.isDigit = true)
    (rest : List Char) (hrest : digitFree rest) :
    readDigits (ds ++ rest) = (ds, rest) := by
  induction ds with
  | nil => simpa using readDigits_stop rest hrest
  | cons c t ih =>
      have hc : c.isDigit = true := hds c (by simp)
      have ht := ih fun x hx => hds x (by simp [hx])
      rw [List.cons_append, readDigits, if_pos hc]
      simp [ht]

theorem readInt_intChars (i : Int) (rest : List Char) (hrest : digitFree rest) :
    readInt (intChars i ++ rest) = some (i, rest) := by
  rw [intChars]
  by_cases hi : i < 0
  · rw [if_pos hi, List.cons_append, readInt,
      readDigits_run _ (natChars_digits _) _ hrest]
    obtain ⟨c, t, hct⟩ := List.exists_cons_of_ne_nil (natChars_ne_nil i.natAbs)
    rw [hct]
    have hval : digitsVal (c :: t) = i.natAbs := by rw [← hct, digitsVal_natChars]
    simp only [hval]
    congr 1
    congr 1
    omega
  · rw [if_neg hi]
    obtain ⟨c, t, hct⟩ := List.exists_cons_of_ne_nil (natChars_ne_nil i.natAbs)
    have hcd : c.isDigit = true := natChars_digits _ c (hct ▸ List.mem_cons_self _ _)
    have hcm : c ≠ '-' := by rintro rfl; exact absurd hcd (by decide)
    rw [hct, List.cons_append, readInt.eq_def]
    split
    · rename_i heq
      rw [List.cons.injEq] at heq
      exact absurd heq.1 hcm
    · rw [show readDigits (c :: (t ++ rest)) = (natChars i.natAbs, rest) from by
        rw [← List.cons_append, ← hct]
        exact readDigits_run _ (natChars_digits _) _ hrest]
      have hne := natChars_ne_nil i.natAbs
      match hnc : natChars i.natAbs, hne with
      | c2 :: t2, _ =>
          simp only [digitsVal_natChars] at *
          rw [show digitsVal (c2 :: t2) = i.natAbs from by rw [← hnc, digitsVal_natChars]]
          congr 1
          congr 1
          omega
theorem readString_escapeList (l : List Char) : ∀ (acc rest : List Char),
    readString acc (escapeList l ++ '"' :: rest) = some (⟨acc.reverse ++ l⟩, rest) := by
  induction l with
  | nil =>
      intro acc rest
      simp [escapeList, readString]
  | cons c cs ih =>
      intro acc rest
      rw [escapeList, escapeChar]
      by_cases hc : c = '"' ∨ c = '\\'
      · rw [if_pos hc]
        simp only [List.cons_append, List.nil_append, List.append_assoc]
        rw [readString, ih]
        simp
      · rw [if_neg hc]
        push_neg at hc
        simp only [List.cons_append, List.nil_append]
        rw [readString.eq_def]
        split
        · rename_i heq
          simp at heq
        · rename_i heq
          rw [List.cons.injEq] at heq
          exact absurd heq.1 hc.2
        · rename_i heq
          rw [List.cons.injEq] at heq
          exact absurd heq.1 hc.1
        · rename_i c' r' heq
          rw [List.cons.injEq] at heq
          obtain ⟨rfl, rfl⟩ := heq
          rw [ih]
          simp

theorem readString_renderString (s : String) (rest : List Char) :
    readString [] (escapeList s.data ++ '"' :: rest) = some (s, rest) := by
  rw [readString_escapeList]
  simp

theorem digit_not_special (c : Char) (h : c.isDigit = true) :
    c ≠ 'n' ∧ c ≠ 't' ∧ c ≠ 'f' ∧ c ≠ '"' ∧ c ≠ '[' ∧ c ≠ '{' ∧ c ≠ ']' ∧
    c ≠ '-' ∧ c ≠ ',' ∧ c ≠ ':' ∧ c ≠ '}' := by
  refine ⟨?_, ?_, ?_, ?_, ?_, ?_, ?_, ?_, ?_, ?_, ?_⟩ <;>
    (rintro rfl; exact absurd h (by decide))

theorem renderV_head (v : JValue) : ∃ c t, renderV v = c :: t ∧ c ≠ ']' := by
  cases v with
  | null => exact ⟨'n', _, by rw [renderV], by decide⟩
  | bool b =>
      cases b with
      | true => exact ⟨'t', _, by rw [renderV]; rfl, by decide⟩
      | false => exact ⟨'f', _, by rw [renderV]; rfl, by decide⟩
  | str s => exact ⟨'"', _, by rw [renderV, renderString], by decide⟩
  | arr xs => exact ⟨'[', _, by rw [renderV], by decide⟩
  | obj kvs => exact ⟨'{', _, by rw [renderV], by decide⟩
  | num n =>
      rw [renderV, intChars]
      by_cases hn : n < 0
      · rw [if_pos hn]
        exact ⟨'-', _, rfl, by decide⟩
      · rw [if_neg hn]
        obtain ⟨c, t, hct⟩ := List.exists_cons_of_ne_nil (natChars_ne_nil n.natAbs)
        have hcd : c.isDigit = true := natChars_digits _ c (hct ▸ List.mem_cons_self _ _)
        exact ⟨c, t, hct, (digit_not_special c hcd).2.2.2.2.2.2.1⟩

theorem renderItems_cons_head (x : JValue) (xs : List JValue) :
    ∃ c t, renderItems (x :: xs) = c :: t ∧ c ≠ ']' := by
  obtain ⟨c, t, hct, hne⟩ := renderV_head x
  exact ⟨c, t ++ sepItems xs, by rw [renderItems, hct]; simp, hne⟩

theorem sizeV_pos (v : JValue) : 1 ≤ sizeV v := by
  cases v <;> rw [sizeV] <;> omega

theorem sizeItems_pos (xs : List JValue) : 1 ≤ sizeItems xs := by
  cases xs with
  | nil => rw [sizeItems]
  | cons x xs => rw [sizeItems]; have := sizeV_pos x; omega

theorem sizeEntries_pos (kvs : List (String × JValue)) : 1 ≤ sizeEntries kvs := by
  cases kvs with
  | nil => rw [sizeEntries]
  | cons kv kvs =>
      obtain ⟨k, v⟩ := kv
      rw [sizeEntries]; have := sizeV_pos v; omega

theorem digitFree_rbrack (rest : List Char) : digitFree (']' :: rest) := by
  rw [digitFree]; decide

theorem digitFree_rbrace (rest : List Char) : digitFree ('}' :: rest) := by
  rw [digitFree]; decide

theorem digitFree_comma (rest : List Char) : digitFree (',' :: rest) := by
  rw [digitFree]; decide

theorem parseV_quote (f : Nat) (r : List Char) :
    parseV (f + 1) ('"' :: r) = (readString [] r).map fun p => (.str p.1, p.2) := by
  rw [parseV]
  simp

theorem parseV_lbrack (f : Nat) (r : List Char) :
    parseV (f + 1) ('[' :: r) =
      if r.head? = some ']' then some (.arr [], r.tail)
      else (parseItems f r).map fun p => (.arr p.1, p.2) := by
  rw [parseV]
  simp

theorem parseV_lbrace (f : Nat) (r : List Char) :
    parseV (f + 1) ('{' :: r) =
      if r.head? = some '}' then some (.obj [], r.tail)
      else (parseEntries f r).map fun p => (.obj p.1, p.2) := by
  rw [parseV]
  simp

theorem parseV_minus (f : Nat) (r : List Char) :
    parseV (f + 1) ('-' :: r) = (readInt ('-' :: r)).map fun p => (.num p.1, p.2) := by
  rw [parseV]
  simp

theorem parseV_digit (f : Nat) (c : Char) (r : List Char) (hc : c.isDigit = true) :
    parseV (f + 1) (c :: r) = (readInt (c :: r)).map fun p => (.num p.1, p.2) := by
  obtain ⟨d1, d2, d3, d4, d5, d6, _, _, _, _, _⟩ := digit_not_special c hc
  rw [parseV]
  simp [d1, d2, d3, d4, d5, d6, hc]

mutual
theorem parseV_renderV : ∀ (f : Nat) (v : JValue) (rest : List Char),
    sizeV v ≤ f → digitFree rest →
    parseV f (renderV v ++ rest) = some (v, rest)
  | 0, v, _, hf, _ => absurd (le_trans (sizeV_pos v) hf) (by omega)
  | f + 1, v, rest, hf, hrest => by
      cases v with
      | null => simp [renderV, parseV, kwNull]
      | bool b => cases b <;> simp [renderV, parseV, kwTrue, kwFalse]
      | str s =>
          rw [renderV, renderString]
          simp only [List.cons_append, List.append_assoc, List.nil_append]
          rw [parseV_quote, readString_renderString]
          rfl
      | num n =>
          rw [renderV]
          by_cases hn : n < 0
          · have harg : intChars n ++ rest = '-' :: (natChars n.natAbs ++ rest) := by
              rw [intChars, if_pos hn, List.cons_append]
            rw [harg, parseV_minus, ← harg, readInt_intChars n rest hrest]
            rfl
          · obtain ⟨c, t, hct⟩ := List.exists_cons_of_ne_nil (natChars_ne_nil n.natAbs)
            have hcd : c.isDigit = true := natChars_digits _ c (hct ▸ List.mem_cons_self _ _)
            have harg : intChars n ++ rest = c :: (t ++ rest) := by
              rw [intChars, if_neg hn, hct, List.cons_append]
            rw [harg, parseV_digit f c _ hcd, ← harg, readInt_intChars n rest hrest]
            rfl
      | arr xs =>
          cases xs with
          | nil =>
              rw [renderV, renderItems]
              simp only [List.nil_append, List.cons_append, List.singleton_append]
              rw [parseV_lbrack]
              simp
          | cons x xs =>
              rw [renderV]
              obtain ⟨c, t, hct, hne⟩ := renderItems_cons_head x xs
              have harg : ('[' :: (renderItems (x :: xs) ++ [']'])) ++ rest
                  = '[' :: (renderItems (x :: xs) ++ ']' :: rest) := by simp
              rw [harg, parseV_lbrack]
              rw [if_neg (by rw [hct]; simp [hne])]
              rw [parseItems_renderItems f x xs rest (by rw [sizeV] at hf; omega)]
              rfl
      | obj kvs =>
          cases kvs with
          | nil =>
              rw [renderV, renderEntries]
              simp only [List.nil_append, List.cons_append, List.singleton_append]
              rw [parseV_lbrace]
              simp
          | cons kv kvs =>
              obtain ⟨k, v⟩ := kv
              rw [renderV]
              have harg : ('{' :: (renderEntries ((k, v) :: kvs) ++ ['}'])) ++ rest
                  = '{' :: (renderEntries ((k, v) :: kvs) ++ '}' :: rest) := by simp
              rw [harg, parseV_lbrace]
              rw [if_neg (by rw [renderEntries, renderString]; simp)]
              rw [parseEntries_renderEntries f k v kvs rest (by rw [sizeV] at hf; omega)]
              rfl

theorem parseItems_renderItems : ∀ (f : Nat) (x : JValue) (xs : List JValue)
    (rest : List Char), sizeItems (x :: xs) ≤ f →
    parseItems f (renderItems (x :: xs) ++ ']' :: rest) = some (x :: xs, rest)
  | 0, x, xs, _, hf => absurd (le_trans (sizeItems_pos _) hf) (by omega)
  | f + 1, x, xs, rest, hf => by
      have hsx : sizeV x ≤ f := by
        have h1 := sizeItems_pos xs
        rw [sizeItems] at hf
        omega
      cases xs with
      | nil =>
          rw [renderItems, sepItems, parseItems]
          simp only [List.append_nil, List.append_assoc]
          rw [parseV_renderV f x (']' :: rest) hsx (digitFree_rbrack rest)]
          rfl
      | cons y ys =>
          rw [renderItems, sepItems, parseItems]
          simp only [List.append_assoc, List.cons_append]
          rw [show renderV x ++ ',' :: (renderV y ++ (sepItems ys ++ ']' :: rest))
              = renderV x ++ ',' :: (renderItems (y :: ys) ++ ']' :: rest) from by
            rw [renderItems]; simp]
          rw [parseV_renderV f x _ hsx (digitFree_comma _)]
          have hrec := parseItems_renderItems f y ys rest (by
            have := sizeV_pos x
            rw [sizeItems] at hf
            omega)
          simp [hrec]

theorem parseEntries_renderEntries : ∀ (f : Nat) (k : String) (v : JValue)
    (kvs : List (String × JValue)) (rest : List Char),
    sizeEntries ((k, v) :: kvs) ≤ f →
    parseEntries f (renderEntries ((k, v) :: kvs) ++ '}' :: rest)
      = some ((k, v) :: kvs, rest)
  | 0, k, v, kvs, _, hf => absurd (le_trans (sizeEntries_pos _) hf) (by omega)
  | f + 1, k, v, kvs, rest, hf => by
      have hsv : sizeV v ≤ f := by
        have h1 := sizeEntries_pos kvs
        rw [sizeEntries] at hf
        omega
      cases kvs with
      | nil =>
          rw [renderEntries, sepEntries, renderString]
          simp only [List.append_nil, List.cons_append, List.append_assoc, List.nil_append]
          rw [parseEntries, readString_renderString]
          simp only []
          rw [parseV_renderV f v ('}' :: rest) hsv (digitFree_rbrace rest)]
          rfl
      | cons kv2 kvs =>
          obtain ⟨k2, v2⟩ := kv2
          rw [renderEntries, sepEntries, renderString]
          simp only [List.cons_append, List.append_assoc, List.nil_append]
          rw [parseEntries, readString_renderString]
          simp only []
          rw [show renderV v ++ ',' :: (renderString k2 ++ ':' ::
                (renderV v2 ++ (sepEntries kvs ++ '}' :: rest)))
              = renderV v ++ ',' :: (renderEntries ((k2, v2) :: kvs) ++ '}' :: rest) from by
            rw [renderEntries]; simp]
          rw [parseV_renderV f v _ hsv (digitFree_comma _)]
          have hrec := parseEntries_renderEntries f k2 v2 kvs rest (by
            have := sizeV_pos v
            rw [sizeEntries] at hf
            omega)
          simp [hrec]
end

theorem length_sepItems_cons (y : JValue) (ys : List JValue) :
    (sepItems (y :: ys)).length = (renderItems (y :: ys)).length + 1 := by
  rw [sepItems, renderItems]
  simp

theorem length_sepEntries_cons (k : String) (v : JValue) (kvs : List (String × JValue)) :
    (sepEntries ((k, v) :: kvs)).length = (renderEntries ((k, v) :: kvs)).length + 1 := by
  rw [sepEntries, renderEntries]
  simp

mutual
theorem sizeV_le : ∀ (v : JValue), sizeV v ≤ (renderV v).length
  | .null => by rw [sizeV, renderV]; simp
  | .bool b => by cases b <;> (rw [sizeV, renderV]; simp)
  | .num n => by
      rw [sizeV, renderV, intChars]
      by_cases hn : n < 0
      · simp [hn]
      · rw [if_neg hn]
        exact List.length_pos.mpr (natChars_ne_nil n.natAbs)
  | .str s => by rw [sizeV, renderV, renderString]; simp
  | .arr xs => by
      rw [sizeV, renderV]
      have h := sizeItems_le xs
      simp only [List.length_cons, List.length_append, List.length_singleton]
      omega
  | .obj kvs => by
      rw [sizeV, renderV]
      have h := sizeEntries_le kvs
      simp only [List.length_cons, List.length_append, List.length_singleton]
      omega

theorem sizeItems_le : ∀ (xs : List JValue), sizeItems xs ≤ (renderItems xs).length + 1
  | [] => by rw [sizeItems, renderItems]; simp
  | x :: xs => by
      rw [sizeItems, renderItems]
      have hx := sizeV_le x
      cases xs with
      | nil =>
          rw [sizeItems, sepItems]
          simp only [List.length_append, List.length_nil]
          omega
      | cons y ys =>
          have hr := sizeItems_le (y :: ys)
          have hs := length_sepItems_cons y ys
          simp only [List.length_append]
          omega

theorem sizeEntries_le : ∀ (kvs : List (String × JValue)),
    sizeEntries kvs ≤ (renderEntries kvs).length + 1
  | [] => by rw [sizeEntries, renderEntries]; simp
  | (k, v) :: kvs => by
      rw [sizeEntries, renderEntries]
      have hv := sizeV_le v
      cases kvs with
      | nil =>
          rw [sizeEntries, sepEntries]
          simp only [List.length_append, List.length_nil, List.length_cons]
          omega
      | cons kv2 kvs2 =>
          obtain ⟨k2, v2⟩ := kv2
          have hr := sizeEntries_le ((k2, v2) :: kvs2)
          have hs := length_sepEntries_cons k2 v2 kvs2
          simp only [List.length_append, List.length_cons]
          omega
end

theorem strEntries_map (hs : List (String × String)) :
    strEntries (hs.map fun kv => (kv.1, .str kv.2)) = .ok hs := by
  induction hs with
  | nil => rfl
  | cons kv tl ih =>
      obtain ⟨k, v⟩ := kv
      simp only [List.map_cons]
      rw [strEntries, ih]

theorem from_dict_to_dict (m : Message) : Message.from_dict m.to_dict = .ok m := by
  obtain ⟨i, ty, pl, hs, ts⟩ := m
  simp [Message.to_dict, Message.from_dict, getStrField, getObjField,
    List.lookup, strEntries_map]

theorem from_json_to_json (m : Message) : Message.from_json m.to_json = .ok m := by
  rw [Message.to_json, Message.from_json]
  have hdata : (String.mk (renderV (.obj m.to_dict))).data = renderV (.obj m.to_dict) := rfl
  rw [hdata]
  have hp := parseV_renderV ((renderV (.obj m.to_dict)).length + 1) (.obj m.to_dict) []
    (by have := sizeV_le (.obj m.to_dict); omega) (by rw [digitFree]; trivial)
  rw [List.append_nil] at hp
  rw [hp]
  exact from_dict_to_dict m

theorem lookup_append_none {α β : Type} [BEq α] (l1 l2 : List (α × β)) (k : α)
    (h : List.lookup k l1 = none) : List.lookup k (l1 ++ l2) = List.lookup k l2 := by
  induction l1 with
  | nil => simp
  | cons kv l1 ih =>
      rw [List.cons_append, List.lookup] at *
      cases hk : (k == kv.1)
      · rw [hk] at h
        exact ih h
      · rw [hk] at h
        exact Option.noConfusion h

/-- C2: decoding the encoding of any `Message` yields a message equal in all
fields, for both the structured-mapping encoding (`to_dict`/`from_dict`)
and the textual encoding (`to_json`/`from_json`). -/
theorem message_encode_decode_roundtrip (m : Message) :
    Message.from_dict m.to_dict = Except.ok m ∧
    Message.from_json m.to_json = Except.ok m :=
  ⟨from_dict_to_dict m, from_json_to_json m⟩

/-- C4: on a stream bus whose consume loop has caught up (group cursor at
the end of the stream — the state `start()` establishes and every `send`
re-establishes), `send` returns a non-empty entry identifier, and the
registered stream handler observes exactly one delivery, the sent message
with its original payload, by the time `send` returns. -/
theorem stream_send_delivers_once (st : StreamState) (m : Message)
    (hcaught : st.cursor = st.entries.length) :
    (sendStream st m).1 ≠ "" ∧ (sendStream st m).2.2 = [m] := by
  constructor
  · rw [sendStream]
    intro h
    have hdata : natChars (st.entries.length + 1) = [] := congrArg String.data h
    exact natChars_ne_nil _ hdata
  · rw [sendStream, consumeLoop]
    simp only [hcaught]
    exact List.drop_left st.entries [m]

/-- Witness for C4: a first send on a fresh stream. -/
theorem stream_send_delivers_once_witness :
    ((⟨[], 0⟩ : StreamState).cursor = (⟨[], 0⟩ : StreamState).entries.length) ∧
    ((sendStream ⟨[], 0⟩ ⟨"m1", "order.created", [("order_id", .num 42)], [], "t0"⟩).1 ≠ "" ∧
     (sendStream ⟨[], 0⟩ ⟨"m1", "order.created", [("order_id", .num 42)], [], "t0"⟩).2.2
       = [⟨"m1", "order.created", [("order_id", .num 42)], [], "t0"⟩]) :=
  ⟨rfl, stream_send_delivers_once ⟨[], 0⟩
    ⟨"m1", "order.created", [("order_id", .num 42)], [], "t0"⟩ rfl⟩

theorem get_cached_lookup (r : Registry) (n : String) (b : BusInst) (r1 : Registry)
    (h1 : r.get n = (.ok b, r1)) : List.lookup n r1.instances = some b := by
  rw [Registry.get] at h1
  split at h1
  · rename_i b0 hlook
    simp only [Prod.mk.injEq, Except.ok.injEq] at h1
    obtain ⟨rfl, rfl⟩ := h1
    exact hlook
  · rename_i hlook
    split at h1
    · simp at h1
    · split at h1
      · simp at h1
      · rename_i cfg hfac b2 hcon
        simp only [Prod.mk.injEq, Except.ok.injEq] at h1
        obtain ⟨rfl, rfl⟩ := h1
        show List.lookup n (r.instances ++ [(n, b2)]) = some b2
        rw [lookup_append_none _ _ _ hlook]
        simp [List.lookup]

/-- C5: a second `get` with no intervening reset returns the identical
cached instance and leaves the registry unchanged (so nothing is
constructed again), and `resolve` after a prior `get` returns that same
instance without invoking construction. -/
theorem get_caches (r : Registry) (n : String) (b : BusInst) (r1 : Registry)
    (h1 : r.get n = (.ok b, r1)) :
    r1.get n = (.ok b, r1) ∧ r1.resolve n = .ok b := by
  have hl := get_cached_lookup r n b r1 h1
  constructor
  · rw [Registry.get, hl]
  · rw [Registry.resolve, hl]

/-- Witness for C5: two `get` calls and a `resolve` on a fresh one-bus
registry. -/
theorem get_caches_witness :
    (Registry.get
        ⟨some ⟨[("test", ⟨"memory"⟩)], [("events", ⟨"test", some ⟨["order.*"]⟩, none, none⟩)]⟩,
         [("events", ⟨"events", ⟨"test", some ⟨["order.*"]⟩, none, none⟩, [], [], false⟩)],
         [], 1⟩ "events"
      = (.ok ⟨"events", ⟨"test", some ⟨["order.*"]⟩, none, none⟩, [], [], false⟩,
         ⟨some ⟨[("test", ⟨"memory"⟩)], [("events", ⟨"test", some ⟨["order.*"]⟩, none, none⟩)]⟩,
          [("events", ⟨"events", ⟨"test", some ⟨["order.*"]⟩, none, none⟩, [], [], false⟩)],
          [], 1⟩)) ∧
    (Registry.resolve
        ⟨some ⟨[("test", ⟨"memory"⟩)], [("events", ⟨"test", some ⟨["order.*"]⟩, none, none⟩)]⟩,
         [("events", ⟨"events", ⟨"test", some ⟨["order.*"]⟩, none, none⟩, [], [], false⟩)],
         [], 1⟩ "events"
      = .ok ⟨"events", ⟨"test", some ⟨["order.*"]⟩, none, none⟩, [], [], false⟩) :=
  get_caches
    ⟨some ⟨[("test", ⟨"memory"⟩)], [("events", ⟨"test", some ⟨["order.*"]⟩, none, none⟩)]⟩,
     [], [], 0⟩
    "events"
    ⟨"events", ⟨"test", some ⟨["order.*"]⟩, none, none⟩, [], [], false⟩
    ⟨some ⟨[("test", ⟨"memory"⟩)], [("events", ⟨"test", some ⟨["order.*"]⟩, none, none⟩)]⟩,
     [("events", ⟨"events", ⟨"test", some ⟨["order.*"]⟩, none, none⟩, [], [], false⟩)],
     [], 1⟩
    rfl

/-- C6: `get` before any `setup_bus_factory` fails with the not-initialized
`RuntimeError` and returns the registry unchanged, so the failure neither
constructs nor caches an instance; `resolve` of a name never constructed by
`get` fails with the not-found `KeyError` (and, being a pure lookup,
constructs nothing). -/
theorem uninitialized_get_and_unknown_resolve (r : Registry) (n : String)
    (hf : r.factory = none) (hi : r.instances = [])
    (r2 : Registry) (n2 : String) (hn2 : List.lookup n2 r2.instances = none) :
    r.get n = (.error .notInit, r) ∧ r2.resolve n2 = .error .notFound := by
  constructor
  · rw [Registry.get, hi,
      show (List.lookup n ([] : List (String × BusInst))) = none from rfl, hf]
  · rw [Registry.resolve, hn2]

/-- Witness for C6: a reset registry and an unknown name. -/
theorem uninitialized_get_and_unknown_resolve_witness :
    ((⟨none, [], [], 0⟩ : Registry).factory = none) ∧
    (Registry.get ⟨none, [], [], 0⟩ "events" = (.error .notInit, ⟨none, [], [], 0⟩) ∧
     Registry.resolve ⟨none, [], [], 0⟩ "nonexistent" = .error .notFound) :=
  ⟨rfl, uninitialized_get_and_unknown_resolve ⟨none, [], [], 0⟩ "events" rfl rfl
    ⟨none, [], [], 0⟩ "nonexistent" rfl⟩

theorem pendingFor_append_one (pend : List PendingHandler) (n : String)
    (p : PendingHandler) (hp : p.bus = n) (hpend : pendingFor pend n = []) :
    pendingFor (pend ++ [p]) n = [p] := by
  rw [pendingFor] at hpend ⊢
  rw [List.filter_append, hpend, List.nil_append, List.filter_cons]
  simp [hp]

theorem pendingFor_clear (pend : List PendingHandler) (n : String) :
    pendingFor (pend.filter fun p => !(p.bus == n)) n = [] := by
  rw [pendingFor, List.filter_filter]
  simp

theorem constructBus_eq (cfg : MQConfig) (n : String) (pend : List PendingHandler)
    (bc : BusConfig) (hbc : List.lookup n cfg.buses = some bc) :
    constructBus cfg n pend = some
      { name := n, config := bc,
        subs := ((pendingFor pend n).filter fun p => p.kind == HandlerKind.pubsub).map
          fun p => (p.pattern, p.handler),
        streamSubs := ((pendingFor pend n).filter fun p => p.kind == HandlerKind.stream).map
          fun p => (p.pattern, p.handler),
        started := false } := by
  rw [constructBus, hbc]
  rfl

theorem get_constructs (r : Registry) (cfg : MQConfig) (n : String) (b : BusInst)
    (hf : r.factory = some cfg) (hni : List.lookup n r.instances = none)
    (hcb : constructBus cfg n r.pending = some b) :
    r.get n = (.ok b,
      { factory := r.factory, instances := r.instances ++ [(n, b)],
        pending := r.pending.filter fun p => !(p.bus == n),
        constructions := r.constructions + 1 }) := by
  rw [Registry.get, hni, hf]
  simp only [hcb]

theorem addHandler_not_constructed (r : Registry) (n pat : String) (hid : Nat)
    (kd : HandlerKind) (hni : List.lookup n r.instances = none) :
    r.addHandler n pat hid kd =
      { factory := r.factory, instances := r.instances,
        pending := r.pending ++ [⟨n, pat, hid, kd⟩],
        constructions := r.constructions } := by
  rw [Registry.addHandler, hni]

/-- C7: a handler registered through the `subscriber`/`stream_handler`
decorator before its bus is constructed is recorded in the pending buffer
under that bus name, drained into the `Bus` exactly once at construction by
`get` (after which the buffer for the name is cleared), and the resulting
bus dispatches every message exactly as a bus whose handler was registered
directly on the constructed instance. -/
theorem decorator_pending_drain (r : Registry) (cfg : MQConfig) (n pat : String)
    (hid : Nat) (kd : HandlerKind) (bc : BusConfig)
    (hf : r.factory = some cfg)
    (hni : List.lookup n r.instances = none)
    (hbc : List.lookup n cfg.buses = some bc)
    (hpend : pendingFor r.pending n = []) :
    ∃ b r2 b0 r0,
      pendingFor (r.addHandler n pat hid kd).pending n = [⟨n, pat, hid, kd⟩] ∧
      (r.addHandler n pat hid kd).get n = (.ok b, r2) ∧
      busHandlers kd b = [(pat, hid)] ∧
      pendingFor r2.pending n = [] ∧
      r.get n = (.ok b0, r0) ∧
      busHandlers kd b = busHandlers kd (b0.register kd pat hid) ∧
      (∀ ty, dispatch (busHandlers kd b.start) ty
        = dispatch (busHandlers kd ((b0.register kd pat hid).start)) ty) := by
  have hadd := addHandler_not_constructed r n pat hid kd hni
  cases kd with
  | pubsub =>
      have hp1 := pendingFor_append_one r.pending n ⟨n, pat, hid, .pubsub⟩ rfl hpend
      have hcb1 : constructBus cfg n (r.pending ++ [⟨n, pat, hid, HandlerKind.pubsub⟩])
          = some ⟨n, bc, [(pat, hid)], [], false⟩ := by
        rw [constructBus_eq cfg n _ bc hbc, hp1]
        simp
      have hcb0 : constructBus cfg n r.pending = some ⟨n, bc, [], [], false⟩ := by
        rw [constructBus_eq cfg n _ bc hbc, hpend]
        simp
      have hget1 := get_constructs (r.addHandler n pat hid .pubsub) cfg n
        ⟨n, bc, [(pat, hid)], [], false⟩ (by rw [hadd]; exact hf) (by rw [hadd]; exact hni)
        (by rw [hadd]; exact hcb1)
      have hget0 := get_constructs r cfg n ⟨n, bc, [], [], false⟩ hf hni hcb0
      refine ⟨⟨n, bc, [(pat, hid)], [], false⟩, _, ⟨n, bc, [], [], false⟩, _,
        ?_, hget1, rfl, ?_, hget0, rfl, fun ty => rfl⟩
      · rw [hadd]
        exact hp1
      · exact pendingFor_clear _ n
  | stream =>
      have hp1 := pendingFor_append_one r.pending n ⟨n, pat, hid, .stream⟩ rfl hpend
      have hcb1 : constructBus cfg n (r.pending ++ [⟨n, pat, hid, HandlerKind.stream⟩])
          = some ⟨n, bc, [], [(pat, hid)], false⟩ := by
        rw [constructBus_eq cfg n _ bc hbc, hp1]
        simp
      have hcb0 : constructBus cfg n r.pending = some ⟨n, bc, [], [], false⟩ := by
        rw [constructBus_eq cfg n _ bc hbc, hpend]
        simp
      have hget1 := get_constructs (r.addHandler n pat hid .stream) cfg n
        ⟨n, bc, [], [(pat, hid)], false⟩ (by rw [hadd]; exact hf) (by rw [hadd]; exact hni)
        (by rw [hadd]; exact hcb1)
      have hget0 := get_constructs r cfg n ⟨n, bc, [], [], false⟩ hf hni hcb0
      refine ⟨⟨n, bc, [], [(pat, hid)], false⟩, _, ⟨n, bc, [], [], false⟩, _,
        ?_, hget1, rfl, ?_, hget0, rfl, fun ty => rfl⟩
      · rw [hadd]
        exact hp1
      · exact pendingFor_clear _ n

/-- Witness for C7: a subscriber for `payment.*` registered before the
`events` bus is constructed. -/
theorem decorator_pending_drain_witness :
    ∃ b r2 b0 r0,
      pendingFor (fixtureReg.addHandler "events" "payment.*" 0 .pubsub).pending "events"
        = [⟨"events", "payment.*", 0, .pubsub⟩] ∧
      (fixtureReg.addHandler "events" "payment.*" 0 .pubsub).get "events" = (.ok b, r2) ∧
      busHandlers .pubsub b = [("payment.*", 0)] ∧
      pendingFor r2.pending "events" = [] ∧
      fixtureReg.get "events" = (.ok b0, r0) ∧
      busHandlers .pubsub b = busHandlers .pubsub (b0.register .pubsub "payment.*" 0) ∧
      (∀ ty, dispatch (busHandlers .pubsub b.start) ty
        = dispatch (busHandlers .pubsub ((b0.register .pubsub "payment.*" 0).start)) ty) :=
  decorator_pending_drain fixtureReg fixtureCfg "events" "payment.*" 0 .pubsub
    ⟨"test", some ⟨["order.*", "payment.*"]⟩, none, none⟩ rfl rfl rfl rfl

/-- Witness for C1: `order.*` against `order.created`, segment by segment. -/
theorem pubsub_wildcard_dispatch_witness :
    (splitSegs "order.*".data).length = (splitSegs "order.created".data).length ∧
    ∀ (i : Nat) (h1 : i < (splitSegs "order.*".data).length)
      (h2 : i < (splitSegs "order.created".data).length),
      (splitSegs "order.*".data).get ⟨i, h1⟩ = ['*'] ∨
      (splitSegs "order.*".data).get ⟨i, h1⟩
        = (splitSegs "order.created".data).get ⟨i, h2⟩ :=
  (pubsub_wildcard_dispatch.1 "order.*" "order.created" 0).mp (by decide)
